import Mathlib

/-!
# echo-example: validator and handlers of `main.go`

A shallow embedding of `src/main.go`.

* A Go `string` is a sequence of bytes (`GoString`); `len` is its byte length.
* A Go `int` is modelled as an `Int`; the places where the 64-bit width matters
  (`strconv.Atoi`, the conversion `int(id)`) carry the bound explicitly.
* A Go `error` result is an `Option`: `none` is `nil`; a call that returns a value and an
  error is an `Except`.
* The `users` table is explicit state, a list of rows, threaded through the handlers. The
  statements act on it as SQL defines them, unless the driver reports an error; whether it
  does is an input of each handler (`Driver`), and so are the random numbers the engine
  draws when it has to pick a rowid at random.
* A JSON response is modelled by the JSON value its body carries, as a client parses it.
-/

namespace EchoExample

/-! ## Data model -/

/-- A Go string: an immutable sequence of bytes, not necessarily valid UTF-8. -/
abbrev GoString := List UInt8

/-- Go's builtin `len` on a string: the number of bytes. -/
def len (s : GoString) : Nat := s.length

/-- The UTF-8 encoding of a sequence of Unicode code points, as Go stores text in a string. -/
def utf8 (s : String) : GoString := s.data.flatMap String.utf8EncodeChar

/-- The struct `User` of `main.go`. -/
structure User where
  ID : Int
  Name : GoString
  Age : Int
deriving DecidableEq, Repr

/-- Errors whose text reaches a response through `err.Error()`. -/
inductive GoError where
  /-- The `*strconv.NumError` of `strconv.Atoi` on the given input. -/
  | numError (num : GoString)
  /-- The value `sql.ErrNoRows`, which `Row.Scan` returns when the query selected no row. -/
  | errNoRows
  /-- An error reported by the database driver for a statement. -/
  | driver
deriving DecidableEq, Repr

/-- The message of an `echo.HTTPError`: a string literal of the source or the text of an error. -/
inductive Message where
  | text (s : String)
  | ofError (e : GoError)
deriving DecidableEq, Repr

/-- The struct `echo.HTTPError`: a status code and a message. -/
structure HTTPError where
  Code : Nat
  Message : Message
deriving DecidableEq, Repr

/-- The constructor `echo.NewHTTPError(code, message)`. -/
def NewHTTPError (code : Nat) (message : Message) : HTTPError := ⟨code, message⟩

def StatusOK : Nat := 200
def StatusNoContent : Nat := 204
def StatusBadRequest : Nat := 400
def StatusNotFound : Nat := 404
def StatusInternalServerError : Nat := 500

/-! ## The validator -/

/-- The function `validateUser` of `main.go` (lines 28-42); `none` is the `nil` error. -/
def validateUser (name : GoString) (age : Int) : Option HTTPError :=
  if name = [] then
    some (NewHTTPError StatusBadRequest (.text "name is empty"))
  else if len name ≥ 100 then
    some (NewHTTPError StatusBadRequest (.text "name is too long"))
  else if age < 0 ∨ age ≥ 200 then
    some (NewHTTPError StatusBadRequest (.text "age must be between 0 and 200"))
  else
    none

/-! ## `strconv.Atoi` and the width of `int` -/

/-- The least value of a 64-bit `int`. -/
def minInt : Int := -(2 ^ 63)

/-- The greatest value of a 64-bit `int`. -/
def maxInt : Int := 2 ^ 63 - 1

/-- The conversion `int(x)` of an `int64` to a 64-bit `int`: reduction to the signed range. -/
def toInt (x : Int) : Int := (x + 2 ^ 63) % 2 ^ 64 - 2 ^ 63

/-- The number written by a string of ASCII decimal digits, read left to right from the
accumulator `n`; `none` when a byte is not a digit. -/
def parseDigits : GoString → Nat → Option Nat
  | [], n => some n
  | ch :: rest, n =>
    if 48 ≤ ch.toNat ∧ ch.toNat ≤ 57 then parseDigits rest (n * 10 + (ch.toNat - 48)) else none

/-- Go's `strconv.Atoi` for a 64-bit `int`: an optional sign `+` (43) or `-` (45), then one or
more decimal digits, the value within the range of `int`; every other input is an error. -/
def Atoi (s : GoString) : Except GoError Int :=
  let signed : Bool := s.head? = some 43 || s.head? = some 45
  let digits := if signed then s.tail else s
  if digits = [] then
    .error (.numError s)
  else
    match parseDigits digits 0 with
    | none => .error (.numError s)
    | some n =>
      let v : Int := if s.head? = some 45 then -(n : Int) else (n : Int)
      if minInt ≤ v ∧ v ≤ maxInt then .ok v else .error (.numError s)

/-- The decimal digits of a natural number, most significant first, in ASCII. -/
def natDigits (n : Nat) : GoString :=
  if n < 10 then [UInt8.ofNat (48 + n)] else natDigits (n / 10) ++ [UInt8.ofNat (48 + n % 10)]
termination_by n
decreasing_by omega

/-- The decimal text of an integer, as a client writes an id into the path `/users/:id`. -/
def decimal (i : Int) : GoString :=
  if i < 0 then 45 :: natDigits i.natAbs else natDigits i.natAbs

/-! ## JSON -/

/-- The constant `utf8.RuneError`, the replacement character U+FFFD. -/
def RuneError : Nat := 0xFFFD

/-- The tables `first` and `acceptRanges` of Go's `unicode/utf8` for a leading byte of 0x80 or
more: the length of the sequence and the range allowed for its second byte; `none` for a byte
that cannot start a sequence. -/
def leading (b : Nat) : Option (Nat × Nat × Nat) :=
  if 0xC2 ≤ b ∧ b ≤ 0xDF then some (2, 0x80, 0xBF)
  else if b = 0xE0 then some (3, 0xA0, 0xBF)
  else if b = 0xED then some (3, 0x80, 0x9F)
  else if 0xE1 ≤ b ∧ b ≤ 0xEF then some (3, 0x80, 0xBF)
  else if b = 0xF0 then some (4, 0x90, 0xBF)
  else if 0xF1 ≤ b ∧ b ≤ 0xF3 then some (4, 0x80, 0xBF)
  else if b = 0xF4 then some (4, 0x80, 0x8F)
  else none

/-- Go's `utf8.DecodeRuneInString`: the first rune of the string and its width in bytes; an
invalid or truncated sequence gives `RuneError` with width 1. The masked and shifted bytes
that Go joins with `|` occupy separate bits, so they are added here. -/
def DecodeRuneInString (s : GoString) : Nat × Nat :=
  let n := len s
  if n < 1 then (RuneError, 0) else
  let s0 := (s.getD 0 0).toNat
  if s0 < 0x80 then (s0, 1) else
  match leading s0 with
  | none => (RuneError, 1)
  | some (sz, lo, hi) =>
    if n < sz then (RuneError, 1) else
    let s1 := (s.getD 1 0).toNat
    if s1 < lo ∨ hi < s1 then (RuneError, 1) else
    if sz ≤ 2 then (s0 % 32 * 64 + s1 % 64, 2) else
    let s2 := (s.getD 2 0).toNat
    if s2 < 0x80 ∨ 0xBF < s2 then (RuneError, 1) else
    if sz ≤ 3 then (s0 % 16 * 4096 + s1 % 64 * 64 + s2 % 64, 3) else
    let s3 := (s.getD 3 0).toNat
    if s3 < 0x80 ∨ 0xBF < s3 then (RuneError, 1) else
    (s0 % 8 * 262144 + s1 % 64 * 4096 + s2 % 64 * 64 + s3 % 64, 4)

/-- The loop of `encoding/json` over a string: at each position it decodes one rune and moves
on by its width; `skip` counts the bytes of the current rune still to pass. A byte that does
not decode is written as U+FFFD. -/
def jsonRunes : GoString → Nat → List Char
  | [], _ => []
  | b :: rest, 0 =>
    Char.ofNat (DecodeRuneInString (b :: rest)).1 ::
      jsonRunes rest ((DecodeRuneInString (b :: rest)).2 - 1)
  | _ :: rest, skip + 1 => jsonRunes rest skip

/-- The text of the JSON string that `encoding/json` writes for a Go string, escapes resolved:
the runes of the string, U+FFFD standing for every byte that is not part of valid UTF-8. -/
def jsonString (s : GoString) : String := ⟨jsonRunes s 0⟩

/-- The JSON object written for a `User`, with the members `id`, `name` and `age` that the
struct tags name. -/
structure UserJSON where
  id : Int
  name : String
  age : Int
deriving DecidableEq, Repr

/-- The encoding of a `User` by `encoding/json`, which `c.JSON` calls. -/
def marshal (u : User) : UserJSON := ⟨u.ID, jsonString u.Name, u.Age⟩

/-! ## The `users` table -/

/-- Modelled from the spec: the `users` table, whose schema is not in `main.go`
(`id integer primary key, name text, age integer`): a list of rows. -/
abbrev Table := List User

/-- The ids present in a table. -/
def Table.ids (db : Table) : List Int := db.map User.ID

/-- What the database does with one statement besides reading and writing the table. -/
structure Driver where
  /-- The call `db.Exec`, `db.Query` or `Scan` reports an error of the driver, such as a
  missing table, a locked file or a row that does not decode. -/
  fails : Bool
  /-- The random 64-bit numbers the engine draws when it picks a rowid at random. -/
  draws : List Int
  /-- The number of rows after which `rows.Next` meets an error while a listing is read,
  `none` when it meets none. -/
  stopAfter : Option Nat
deriving DecidableEq, Repr

/-- The greatest id of the table, `none` for an empty table. -/
def maxRowid : Table → Option Int
  | [] => none
  | u :: rest =>
    match maxRowid rest with
    | none => some u.ID
    | some m => some (max u.ID m)

/-- Modelled from the spec: the id the store assigns to a new row of a table whose `id` is an
`integer primary key`, as SQLite chooses it: 1 in an empty table, else one more than the
greatest id; when the greatest id is the largest 64-bit integer, the first of up to 100 random
candidates between 1 and 2^62 that no row has, and `none` (the table is full) when all of
them are taken. -/
def newRowid (draws : List Int) (db : Table) : Option Int :=
  match maxRowid db with
  | none => some 1
  | some m =>
    if m < maxInt then some (m + 1)
    else ((draws.take 100).map (fun v => v % 2 ^ 62 + 1)).find? (fun i => decide (i ∉ db.ids))

/-- The table with a new row, placed before the first row of a greater id, so that a table
in the order of its ids stays in that order. -/
def insertRow (u : User) : Table → Table
  | [] => [u]
  | r :: rest => if u.ID < r.ID then u :: r :: rest else r :: insertRow u rest

/-- The statement `INSERT INTO users (name, age) VALUES (?, ?)` (line 60) followed by
`result.LastInsertId()` (line 65): the new table and the id the store assigned. -/
def execInsert (drv : Driver) (db : Table) (name : GoString) (age : Int) :
    Except GoError (Table × Int) :=
  if drv.fails then .error .driver
  else
    match newRowid drv.draws db with
    | none => .error .driver
    | some i => .ok (insertRow ⟨i, name, age⟩ db, i)

/-- The statement `UPDATE users SET name = ?, age = ? WHERE id = ?` (line 86) followed by
`result.RowsAffected()` (line 91): the new table and the number of rows matched. -/
def execUpdate (drv : Driver) (db : Table) (name : GoString) (age : Int) (id : Int) :
    Except GoError (Table × Nat) :=
  if drv.fails then .error .driver
  else
    .ok (db.map (fun u => if u.ID = id then { u with Name := name, Age := age } else u),
      (db.filter (fun u => u.ID = id)).length)

/-- The statement `DELETE FROM users WHERE id = ?` (line 124) followed by
`result.RowsAffected()` (line 129): the new table and the number of rows deleted. -/
def execDelete (drv : Driver) (db : Table) (id : Int) : Except GoError (Table × Nat) :=
  if drv.fails then .error .driver
  else .ok (db.filter (fun u => u.ID ≠ id), (db.filter (fun u => u.ID = id)).length)

/-- The query `SELECT id, name, age FROM users` (line 100) and the loop that scans its rows
(lines 106-113). An error of `db.Query` or `rows.Scan` is returned; an error that `rows.Next`
meets ends the loop with the rows read so far, since the handler never calls `rows.Err`. -/
def queryAll (drv : Driver) (db : Table) : Except GoError (List User) :=
  if drv.fails then .error .driver
  else
    match drv.stopAfter with
    | none => .ok db
    | some k => .ok (db.take k)

/-- The query `SELECT id, name, age FROM users WHERE id = ?` (line 143) and `row.Scan`
(line 146), which returns `sql.ErrNoRows` when no row is selected. -/
def queryRow (drv : Driver) (db : Table) (id : Int) : Except GoError User :=
  if drv.fails then .error .driver
  else
    match db.find? (fun u => u.ID = id) with
    | some u => .ok u
    | none => .error .errNoRows

/-! ## The handlers -/

/-- What a handler does with its request: it returns an error, which echo turns into a
response with the error's status code, or it writes a response itself. -/
inductive Outcome where
  /-- The handler returned a non-nil error. -/
  | failed (e : HTTPError)
  /-- The call `c.JSON(code, user)`: the status and the JSON object of the body. -/
  | json (code : Nat) (body : UserJSON)
  /-- The call `c.JSON(code, users)`: the status and the JSON array of the body. -/
  | jsonList (code : Nat) (body : List UserJSON)
  /-- The call `c.NoContent(code)`. -/
  | noContent (code : Nat)
deriving DecidableEq, Repr

/-- The HTTP status of the response. -/
def Outcome.status : Outcome → Nat
  | .failed e => e.Code
  | .json code _ => code
  | .jsonList code _ => code
  | .noContent code => code

/-- The handler of `POST /users` (lines 49-68), on the form values `name` and `age`. -/
def postUsers (drv : Driver) (db : Table) (name ageForm : GoString) : Table × Outcome :=
  match Atoi ageForm with
  | .error err => (db, .failed (NewHTTPError StatusBadRequest (.ofError err)))
  | .ok age =>
    match validateUser name age with
    | some err => (db, .failed err)
    | none =>
      match execInsert drv db name age with
      | .error err => (db, .failed (NewHTTPError StatusInternalServerError (.ofError err)))
      | .ok (db1, id) => (db1, .json StatusOK (marshal ⟨toInt id, name, age⟩))

/-- The handler of `PUT /users/:id` (lines 70-97), on the path parameter `id` and the form
values `name` and `age`. -/
def putUsersId (drv : Driver) (db : Table) (idParam name ageForm : GoString) :
    Table × Outcome :=
  match Atoi idParam with
  | .error err => (db, .failed (NewHTTPError StatusBadRequest (.ofError err)))
  | .ok id =>
    match Atoi ageForm with
    | .error err => (db, .failed (NewHTTPError StatusBadRequest (.ofError err)))
    | .ok age =>
      match validateUser name age with
      | some err => (db, .failed err)
      | none =>
        match execUpdate drv db name age id with
        | .error err => (db, .failed (NewHTTPError StatusInternalServerError (.ofError err)))
        | .ok (db1, rowsAffected) =>
          if rowsAffected = 0 then
            (db1, .failed (NewHTTPError StatusNotFound (.text "user not found")))
          else
            (db1, .json StatusOK (marshal ⟨id, name, age⟩))

/-- The handler of `GET /users` (lines 99-116). -/
def getUsers (drv : Driver) (db : Table) : Table × Outcome :=
  match queryAll drv db with
  | .error err => (db, .failed (NewHTTPError StatusInternalServerError (.ofError err)))
  | .ok users => (db, .jsonList StatusOK (users.map marshal))

/-- The handler of `DELETE /users/:id` (lines 118-135), on the path parameter `id`. -/
def deleteUsersId (drv : Driver) (db : Table) (idParam : GoString) : Table × Outcome :=
  match Atoi idParam with
  | .error err => (db, .failed (NewHTTPError StatusBadRequest (.ofError err)))
  | .ok id =>
    match execDelete drv db id with
    | .error err => (db, .failed (NewHTTPError StatusInternalServerError (.ofError err)))
    | .ok (db1, rowsAffected) =>
      if rowsAffected = 0 then
        (db1, .failed (NewHTTPError StatusNotFound (.text "user not found")))
      else
        (db1, .noContent StatusNoContent)

/-- The handler of `GET /users/:id` (lines 137-151), on the path parameter `id`. -/
def getUsersId (drv : Driver) (db : Table) (idParam : GoString) : Table × Outcome :=
  match Atoi idParam with
  | .error err => (db, .failed (NewHTTPError StatusBadRequest (.ofError err)))
  | .ok id =>
    match queryRow drv db id with
    | .error err => (db, .failed (NewHTTPError StatusInternalServerError (.ofError err)))
    | .ok user => (db, .json StatusOK (marshal user))

/-! ## The router -/

/-- A request to one of the five routes, with its raw parameters and with what the database
does while it is served. -/
inductive Request where
  | post (drv : Driver) (name ageForm : GoString)
  | put (drv : Driver) (idParam name ageForm : GoString)
  | list (drv : Driver)
  | delete (drv : Driver) (idParam : GoString)
  | get (drv : Driver) (idParam : GoString)

/-- The dispatch of a request to its handler. -/
def serve (db : Table) : Request → Table × Outcome
  | .post drv name ageForm => postUsers drv db name ageForm
  | .put drv idParam name ageForm => putUsersId drv db idParam name ageForm
  | .list drv => getUsers drv db
  | .delete drv idParam => deleteUsersId drv db idParam
  | .get drv idParam => getUsersId drv db idParam

/-- The table after a sequence of requests served one after the other. -/
def run (db : Table) : List Request → Table
  | [] => db
  | req :: rest => run (serve db req).1 rest

/-- Every row of the table passes the validator. -/
def Table.valid (db : Table) : Prop := ∀ u ∈ db, validateUser u.Name u.Age = none

/-! ## Sample data -/

/-- A database that executes its statements. -/
def sound : Driver := ⟨false, [], none⟩

/-- A database whose driver reports an error. -/
def broken : Driver := ⟨true, [], none⟩

/-- The name "Alice". -/
def alice : GoString := [65, 108, 105, 99, 101]

/-- The name "Bob". -/
def bob : GoString := [66, 111, 98]

/-- A name of one byte, 0xFF, which is not valid UTF-8. -/
def badName : GoString := [255]

/-- The text of one code point, U+FFFD. -/
def replacement : String := ⟨[Char.ofNat 0xFFFD]⟩

/-- The decimal text "1". -/
def one : GoString := [49]

/-- The decimal text "2". -/
def two : GoString := [50]

/-- The decimal text "30". -/
def thirty : GoString := [51, 48]

/-- The decimal text "31". -/
def thirtyOne : GoString := [51, 49]

/-- A table with the single row of Alice, aged 30, under id 1. -/
def sampleTable : Table := [⟨1, alice, 30⟩]

/-- A table of two rows, under the ids 1 and 2. -/
def twoRows : Table := [⟨1, alice, 30⟩, ⟨2, alice, 30⟩]

/-- A sequence of requests: create Bob, create with an empty name, rename row 1, create with
an age of 200 (the bytes 50, 48, 48), create while the driver fails, delete row 2, delete a
row that is not there. -/
def sampleRequests : List Request :=
  [.post sound bob thirtyOne, .post sound [] thirty, .put sound one bob thirtyOne,
   .post sound alice [50, 48, 48], .post broken alice thirty, .delete sound two,
   .delete sound [55]]

/-! ## Theorems about the validator -/

theorem len_utf8 (s : String) : len (utf8 s) = s.utf8ByteSize := by
  have h := String.size_toUTF8 s
  simpa [String.toUTF8, ByteArray.size, Array.size, len, utf8] using h

theorem len_pos_of_ne_nil {name : GoString} (h : name ≠ []) : 1 ≤ len name := by
  cases name with
  | nil => exact absurd rfl h
  | cons b t => simp [len]

/-- The validator accepts exactly the nonempty names shorter than 100 bytes with an age
from 0 to 199. -/
theorem validateUser_eq_none_iff (name : GoString) (age : Int) :
    validateUser name age = none ↔ name ≠ [] ∧ len name < 100 ∧ 0 ≤ age ∧ age < 200 := by
  unfold validateUser
  by_cases hne : name = []
  · simp [hne]
  · by_cases hlen : len name ≥ 100
    · simp only [hne, hlen, if_true, if_false, reduceCtorEq, false_iff]
      omega
    · by_cases hage : age < 0 ∨ age ≥ 200
      · simp only [hne, hlen, hage, if_true, if_false, reduceCtorEq, false_iff]
        omega
      · simp only [hne, hlen, hage, if_false, true_iff]
        exact ⟨hne, by omega, by omega, by omega⟩

/-- C1: for every name with `1 ≤ len(name) ≤ 99` (byte length) and every age with
`0 ≤ age ≤ 199`, `validateUser(name, age)` returns `nil`. -/
theorem validateUser_ok (name : GoString) (age : Int)
    (hlo : 1 ≤ len name) (hhi : len name ≤ 99) (h0 : 0 ≤ age) (h199 : age ≤ 199) :
    validateUser name age = none := by
  have hne : name ≠ [] := by
    rintro rfl
    simp [len] at hlo
  have hlen : ¬ len name ≥ 100 := by omega
  have hage : ¬ (age < 0 ∨ age ≥ 200) := by omega
  simp [validateUser, hne, hlen, hage]

theorem validateUser_ok_witness :
    1 ≤ len [65, 108] ∧ len [65, 108] ≤ 99 ∧ (0 : Int) ≤ 30 ∧ (30 : Int) ≤ 199 ∧
      validateUser [65, 108] 30 = none :=
  ⟨by decide, by decide, by decide, by decide,
    validateUser_ok [65, 108] 30 (by decide) (by decide) (by decide) (by decide)⟩

/-- C2: for every age, in range or not, `validateUser("", age)` fails with status 400 and the
message "name is empty": the empty-name check runs first and the age is never looked at. -/
theorem validateUser_empty (age : Int) :
    validateUser [] age = some ⟨400, .text "name is empty"⟩ := by
  simp [validateUser, NewHTTPError, StatusBadRequest]

/-- C3: for every name with `len(name) ≥ 100` and every age, in range or not,
`validateUser(name, age)` fails with status 400 and the message "name is too long",
never with the age error. -/
theorem validateUser_too_long (name : GoString) (age : Int) (h : 100 ≤ len name) :
    validateUser name age = some ⟨400, .text "name is too long"⟩ := by
  have hne : name ≠ [] := by
    rintro rfl
    simp [len] at h
  simp [validateUser, hne, h, NewHTTPError, StatusBadRequest]

theorem validateUser_too_long_witness :
    100 ≤ len (List.replicate 100 97) ∧
      validateUser (List.replicate 100 97) (-5) = some ⟨400, .text "name is too long"⟩ :=
  ⟨by simp [len], validateUser_too_long (List.replicate 100 97) (-5) (by simp [len])⟩

/-- C4: for every age with `age < 0` or `age ≥ 200` (200 included) and every name with
`1 ≤ len(name) ≤ 99`, `validateUser(name, age)` fails with status 400 and the message
"age must be between 0 and 200". -/
theorem validateUser_age_out_of_range (name : GoString) (age : Int)
    (hlo : 1 ≤ len name) (hhi : len name ≤ 99) (hage : age < 0 ∨ 200 ≤ age) :
    validateUser name age = some ⟨400, .text "age must be between 0 and 200"⟩ := by
  have hne : name ≠ [] := by
    rintro rfl
    simp [len] at hlo
  have hlen : ¬ len name ≥ 100 := by omega
  have hage2 : age < 0 ∨ age ≥ 200 := hage
  simp [validateUser, hne, hlen, hage2, NewHTTPError, StatusBadRequest]

theorem validateUser_age_out_of_range_witness :
    1 ≤ len [66] ∧ len [66] ≤ 99 ∧ ((200 : Int) < 0 ∨ (200 : Int) ≤ 200) ∧
      validateUser [66] 200 = some ⟨400, .text "age must be between 0 and 200"⟩ :=
  ⟨by decide, by decide, by decide,
    validateUser_age_out_of_range [66] 200 (by decide) (by decide) (by decide)⟩

/-- The byte length of a text of `n` code points of two bytes each is `2 * n`. -/
theorem len_utf8_replicate_e_acute (n : Nat) :
    len (utf8 (String.mk (List.replicate n (Char.ofNat 233)))) = 2 * n := by
  induction n with
  | zero => rfl
  | succ k ih =>
    have hstep : len (utf8 (String.mk (List.replicate (k + 1) (Char.ofNat 233)))) =
        2 + len (utf8 (String.mk (List.replicate k (Char.ofNat 233)))) := by
      simp only [len, utf8, List.replicate_succ, List.flatMap_cons, List.length_append,
        String.length_utf8EncodeChar]
      rfl
    rw [hstep, ih]
    omega

/-- C5, as stated, fails: a name of 50 code points, each the two-byte letter U+00E9, has 100
bytes and is rejected as too long for an age of 30. -/
theorem validateUser_characters_counterexample :
    ¬ (∀ (name : String) (age : Int), 1 ≤ name.length → name.length ≤ 99 → 0 ≤ age →
        age ≤ 199 → validateUser (utf8 name) age = none) := by
  intro h
  have hlen := len_utf8_replicate_e_acute 50
  have hok := h (String.mk (List.replicate 50 (Char.ofNat 233))) 30
    (by simp [String.length]) (by simp [String.length]) (by decide) (by decide)
  have hshort := ((validateUser_eq_none_iff _ _).mp hok).2.1
  omega

/-- C5, amended: for every name of 1 to 99 code points and every age in 0..199,
`validateUser` succeeds exactly when the UTF-8 encoding of the name has at most 99 bytes;
otherwise it fails with "name is too long". -/
theorem validateUser_characters (name : String) (age : Int)
    (hlo : 1 ≤ name.length) (_hhi : name.length ≤ 99) (h0 : 0 ≤ age) (h199 : age ≤ 199) :
    (validateUser (utf8 name) age = none ↔ name.utf8ByteSize ≤ 99) ∧
    (99 < name.utf8ByteSize →
      validateUser (utf8 name) age = some ⟨400, .text "name is too long"⟩) := by
  have hlen := len_utf8 name
  have hpos : 1 ≤ len (utf8 name) := by
    apply len_pos_of_ne_nil
    intro hnil
    have hdata : name.data ≠ [] := by
      intro hd
      simp [String.length, hd] at hlo
    cases hd : name.data with
    | nil => exact hdata hd
    | cons c cs =>
      have h1 : (String.utf8EncodeChar c).length = c.utf8Size :=
        String.length_utf8EncodeChar c
      have h2 : 0 < c.utf8Size := Char.utf8Size_pos c
      have h3 : len (utf8 name) = 0 := by simp [hnil, len]
      simp [utf8, hd, len] at h3
      omega
  have hne : utf8 name ≠ [] := by
    intro hnil
    simp [hnil, len] at hpos
  refine ⟨⟨fun hok => ?_, fun hle => ?_⟩, fun hgt => ?_⟩
  · have hshort := ((validateUser_eq_none_iff _ _).mp hok).2.1
    omega
  · exact (validateUser_eq_none_iff _ _).mpr ⟨hne, by omega, h0, by omega⟩
  · have hlong : len (utf8 name) ≥ 100 := by omega
    simp [validateUser, hne, hlong, NewHTTPError, StatusBadRequest]

theorem validateUser_characters_witness :
    1 ≤ "Al".length ∧ "Al".length ≤ 99 ∧ (0 : Int) ≤ 30 ∧ (30 : Int) ≤ 199 ∧
    ((validateUser (utf8 "Al") 30 = none ↔ "Al".utf8ByteSize ≤ 99) ∧
    (99 < "Al".utf8ByteSize →
      validateUser (utf8 "Al") 30 = some ⟨400, .text "name is too long"⟩)) :=
  ⟨by decide, by decide, by decide, by decide,
    validateUser_characters "Al" 30 (by decide) (by decide) (by decide) (by decide)⟩

/-! ## Theorems about `strconv.Atoi` -/

theorem digit_toNat (d : Nat) (h : d < 10) : (UInt8.ofNat (48 + d)).toNat = 48 + d :=
  UInt8.toNat_ofNat_of_lt (by simp only [UInt8.size]; omega)

theorem parseDigits_append (a b : GoString) (n : Nat) :
    parseDigits (a ++ b) n = (parseDigits a n).bind (parseDigits b) := by
  induction a generalizing n with
  | nil => rfl
  | cons ch rest ih =>
    simp only [List.cons_append, parseDigits]
    split
    · exact ih _
    · rfl

theorem parseDigits_digit (d n : Nat) (h : d < 10) :
    parseDigits [UInt8.ofNat (48 + d)] n = some (n * 10 + d) := by
  have hle : 48 + d ≤ 57 := by omega
  simp [parseDigits, digit_toNat d h, hle]

theorem parseDigits_natDigits (n : Nat) : parseDigits (natDigits n) 0 = some n := by
  induction n using Nat.strong_induction_on with
  | _ n ih =>
    rw [natDigits]
    split
    · rename_i hlt
      simpa using parseDigits_digit n 0 hlt
    · rename_i hge
      rw [parseDigits_append, ih (n / 10) (by omega)]
      simp only [Option.some_bind]
      rw [parseDigits_digit (n % 10) (n / 10) (Nat.mod_lt n (by decide))]
      congr 1
      omega

theorem natDigits_head (n : Nat) :
    ∃ b rest, natDigits n = b :: rest ∧ 48 ≤ b.toNat ∧ b.toNat ≤ 57 := by
  induction n using Nat.strong_induction_on with
  | _ n ih =>
    rw [natDigits]
    split
    · rename_i hlt
      exact ⟨_, [], rfl, by rw [digit_toNat n hlt]; omega, by rw [digit_toNat n hlt]; omega⟩
    · obtain ⟨b, rest, hEq, hlo, hhi⟩ := ih (n / 10) (by omega)
      exact ⟨b, rest ++ [UInt8.ofNat (48 + n % 10)], by rw [hEq]; rfl, hlo, hhi⟩

/-- Every value of a 64-bit `int` is read back by `Atoi` from its decimal text. -/
theorem Atoi_decimal (i : Int) (hlo : minInt ≤ i) (hhi : i ≤ maxInt) :
    Atoi (decimal i) = .ok i := by
  obtain ⟨b, rest, hEq, hb1, hb2⟩ := natDigits_head i.natAbs
  have hparse := parseDigits_natDigits i.natAbs
  have h43 : b ≠ 43 := by
    rintro rfl
    exact absurd hb1 (by decide)
  have h45 : b ≠ 45 := by
    rintro rfl
    exact absurd hb1 (by decide)
  by_cases hneg : i < 0
  · have hv : -((i.natAbs : Nat) : Int) = i := by omega
    simp only [decimal, hneg, if_true, Atoi, List.head?_cons, List.tail_cons, hEq]
    rw [hEq] at hparse
    simp only [hparse, Bool.or_true, decide_True, if_true, reduceCtorEq, if_false, hv, hlo,
      hhi, and_self]
  · have hv : ((i.natAbs : Nat) : Int) = i := by omega
    simp only [decimal, hneg, if_false, Atoi]
    rw [hEq] at hparse ⊢
    simp [hparse, hv, hlo, hhi, h43, h45]

/-! ## Theorems about the JSON encoding of strings -/

theorem or_128 : ∀ y, y < 64 → y ||| 128 = 128 + y := by decide
theorem or_192 : ∀ y, y < 32 → y ||| 192 = 192 + y := by decide
theorem or_224 : ∀ y, y < 16 → y ||| 224 = 224 + y := by decide
theorem or_240 : ∀ y, y < 8 → y ||| 240 = 240 + y := by decide

theorem toNat_or8 (a b : UInt8) : (a ||| b).toNat = a.toNat ||| b.toNat := BitVec.toNat_or ..

theorem shr6 (v : UInt32) : (v >>> 6).toNat = v.toNat / 64 := by
  have h : (v >>> 6).toNat = v.toNat >>> 6 := rfl
  rw [h, Nat.shiftRight_eq_div_pow]

theorem shr12 (v : UInt32) : (v >>> 12).toNat = v.toNat / 4096 := by
  have h : (v >>> 12).toNat = v.toNat >>> 12 := rfl
  rw [h, Nat.shiftRight_eq_div_pow]

theorem shr18 (v : UInt32) : (v >>> 18).toNat = v.toNat / 262144 := by
  have h : (v >>> 18).toNat = v.toNat >>> 18 := rfl
  rw [h, Nat.shiftRight_eq_div_pow]

/-- The continuation byte carrying the six bits of `x` has the value `128 + x % 64`. -/
theorem cont_toNat (x : UInt32) :
    (x.toUInt8 &&& 0x3f ||| 0x80).toNat = 128 + x.toNat % 64 := by
  rw [toNat_or8, UInt8.and_toNat]
  have h1 : x.toUInt8.toNat = x.toNat % 256 := rfl
  have h2 : (0x3f : UInt8).toNat = 2 ^ 6 - 1 := rfl
  have h3 : (0x80 : UInt8).toNat = 128 := rfl
  rw [h1, h2, h3, Nat.and_pow_two_sub_one_eq_mod, or_128 _ (Nat.mod_lt _ (by decide))]
  omega

/-- The leading byte that carries `k` bits of `x` under the marker `m`. -/
theorem lead_toNat (x : UInt32) (mask mark : UInt8) (k m : Nat) (hmask : mask.toNat = 2 ^ k - 1)
    (hmark : mark.toNat = m) (hk : k ≤ 8) (hor : ∀ y, y < 2 ^ k → y ||| m = m + y) :
    (x.toUInt8 &&& mask ||| mark).toNat = m + x.toNat % 2 ^ k := by
  rw [toNat_or8, UInt8.and_toNat]
  have h1 : x.toUInt8.toNat = x.toNat % 256 := rfl
  rw [h1, hmask, hmark, Nat.and_pow_two_sub_one_eq_mod, hor _ (Nat.mod_lt _ (Nat.two_pow_pos k))]
  congr 1
  have h256 : (256 : Nat) = 2 ^ 8 := rfl
  rw [h256, Nat.mod_mod_of_dvd _ (Nat.pow_dvd_pow 2 hk)]

/-- The bytes of the UTF-8 encoding of a character, as numbers. -/
theorem utf8EncodeChar_toNat (c : Char) :
    (String.utf8EncodeChar c).map UInt8.toNat =
      if c.val.toNat ≤ 0x7f then [c.val.toNat]
      else if c.val.toNat ≤ 0x7ff then [192 + c.val.toNat / 64, 128 + c.val.toNat % 64]
      else if c.val.toNat ≤ 0xffff then
        [224 + c.val.toNat / 4096, 128 + c.val.toNat / 64 % 64, 128 + c.val.toNat % 64]
      else
        [240 + c.val.toNat / 262144, 128 + c.val.toNat / 4096 % 64,
          128 + c.val.toNat / 64 % 64, 128 + c.val.toNat % 64] := by
  have hlt : c.val.toNat < 0x110000 := by
    rcases c.valid with h | h
    · exact Nat.lt_trans h (by decide)
    · exact h.2
  have e1 : (c.val ≤ 0x7f) ↔ c.val.toNat ≤ 0x7f := Iff.rfl
  have e2 : (c.val ≤ 0x7ff) ↔ c.val.toNat ≤ 0x7ff := Iff.rfl
  have e3 : (c.val ≤ 0xffff) ↔ c.val.toNat ≤ 0xffff := Iff.rfl
  unfold String.utf8EncodeChar
  simp only [e1, e2, e3]
  split
  · rename_i h
    have h1 : c.val.toUInt8.toNat = c.val.toNat % 256 := rfl
    simp only [List.map_cons, List.map_nil, h1]
    congr 1
    omega
  · split
    · rename_i h1 h2
      simp only [List.map_cons, List.map_nil, cont_toNat, shr6,
        lead_toNat (c.val >>> 6) 0x1f 0xc0 5 192 rfl rfl (by decide) or_192]
      congr 1
      omega
    · split
      · simp only [List.map_cons, List.map_nil, cont_toNat, shr6, shr12,
          lead_toNat (c.val >>> 12) 0x0f 0xe0 4 224 rfl rfl (by decide) or_224]
        congr 1
        omega
      · simp only [List.map_cons, List.map_nil, cont_toNat, shr6, shr12, shr18,
          lead_toNat (c.val >>> 18) 0x07 0xf0 3 240 rfl rfl (by decide) or_240]
        congr 1
        omega

theorem decode_one (b : UInt8) (rest : GoString) (h : b.toNat < 0x80) :
    DecodeRuneInString (b :: rest) = (b.toNat, 1) := by
  simp [DecodeRuneInString, len, h]

theorem decode_two (b0 b1 : UInt8) (rest : GoString) (h0 : 0xC2 ≤ b0.toNat)
    (h0u : b0.toNat ≤ 0xDF) (h1 : 0x80 ≤ b1.toNat) (h1u : b1.toNat ≤ 0xBF) :
    DecodeRuneInString (b0 :: b1 :: rest) = (b0.toNat % 32 * 64 + b1.toNat % 64, 2) := by
  have hl : leading b0.toNat = some (2, 0x80, 0xBF) := by simp [leading, h0, h0u]
  have hn : ¬ b0.toNat < 0x80 := by omega
  have hr : ¬ (b1.toNat < 0x80 ∨ 0xBF < b1.toNat) := by omega
  simp [DecodeRuneInString, len, hl, hn, hr]

theorem decode_three (b0 b1 b2 : UInt8) (rest : GoString) (lo hi : Nat)
    (hl : leading b0.toNat = some (3, lo, hi)) (h0 : 0x80 ≤ b0.toNat)
    (h1 : lo ≤ b1.toNat) (h1u : b1.toNat ≤ hi) (h2 : 0x80 ≤ b2.toNat) (h2u : b2.toNat ≤ 0xBF) :
    DecodeRuneInString (b0 :: b1 :: b2 :: rest) =
      (b0.toNat % 16 * 4096 + b1.toNat % 64 * 64 + b2.toNat % 64, 3) := by
  have hn : ¬ b0.toNat < 0x80 := by omega
  have hr1 : ¬ (b1.toNat < lo ∨ hi < b1.toNat) := by omega
  have hr2 : ¬ (b2.toNat < 0x80 ∨ 0xBF < b2.toNat) := by omega
  simp [DecodeRuneInString, len, hl, hn, hr1, hr2]

theorem decode_four (b0 b1 b2 b3 : UInt8) (rest : GoString) (lo hi : Nat)
    (hl : leading b0.toNat = some (4, lo, hi)) (h0 : 0x80 ≤ b0.toNat)
    (h1 : lo ≤ b1.toNat) (h1u : b1.toNat ≤ hi) (h2 : 0x80 ≤ b2.toNat) (h2u : b2.toNat ≤ 0xBF)
    (h3 : 0x80 ≤ b3.toNat) (h3u : b3.toNat ≤ 0xBF) :
    DecodeRuneInString (b0 :: b1 :: b2 :: b3 :: rest) =
      (b0.toNat % 8 * 262144 + b1.toNat % 64 * 4096 + b2.toNat % 64 * 64 + b3.toNat % 64, 4) := by
  have hn : ¬ b0.toNat < 0x80 := by omega
  have hr1 : ¬ (b1.toNat < lo ∨ hi < b1.toNat) := by omega
  have hr2 : ¬ (b2.toNat < 0x80 ∨ 0xBF < b2.toNat) := by omega
  have hr3 : ¬ (b3.toNat < 0x80 ∨ 0xBF < b3.toNat) := by omega
  simp [DecodeRuneInString, len, hl, hn, hr1, hr2, hr3]

theorem decode_utf8EncodeChar (c : Char) (rest : GoString) :
    DecodeRuneInString (String.utf8EncodeChar c ++ rest) =
      (c.val.toNat, (String.utf8EncodeChar c).length) := by
  have h := utf8EncodeChar_toNat c
  have hvalid : c.val.toNat < 0xD800 ∨ (0xDFFF < c.val.toNat ∧ c.val.toNat < 0x110000) :=
    c.valid
  generalize c.val.toNat = v at h hvalid
  generalize String.utf8EncodeChar c = l at h
  split at h
  · rename_i hv
    simp only [List.map_eq_cons_iff, List.map_eq_nil_iff] at h
    obtain ⟨a, t, rfl, ha, rfl⟩ := h
    rw [List.singleton_append, decode_one a rest (by omega), ha]
    rfl
  · split at h
    · rename_i hv1 hv2
      simp only [List.map_eq_cons_iff, List.map_eq_nil_iff] at h
      obtain ⟨a, t, rfl, ha, b, t2, rfl, hb, rfl⟩ := h
      have hd := decode_two a b rest (by omega) (by omega) (by omega) (by omega)
      simp only [List.cons_append, List.nil_append, hd, List.length_cons, List.length_nil]
      congr 1
      omega
    · split at h
      · rename_i hv1 hv2 hv3
        simp only [List.map_eq_cons_iff, List.map_eq_nil_iff] at h
        obtain ⟨a, t, rfl, ha, b, t2, rfl, hb, d, t3, rfl, hd, rfl⟩ := h
        have hlead : ∃ lo hi, leading a.toNat = some (3, lo, hi) ∧ lo ≤ b.toNat ∧
            b.toNat ≤ hi := by
          by_cases hE0 : v / 4096 = 0
          · refine ⟨0xA0, 0xBF, ?_, by omega, by omega⟩
            have : a.toNat = 0xE0 := by omega
            simp [leading, this]
          · by_cases hED : v / 4096 = 13
            · refine ⟨0x80, 0x9F, ?_, by omega, by omega⟩
              have : a.toNat = 0xED := by omega
              simp [leading, this]
            · refine ⟨0x80, 0xBF, ?_, by omega, by omega⟩
              have h1 : ¬ (0xC2 ≤ a.toNat ∧ a.toNat ≤ 0xDF) := by omega
              have h2 : ¬ a.toNat = 0xE0 := by omega
              have h3 : ¬ a.toNat = 0xED := by omega
              have h4 : 0xE1 ≤ a.toNat ∧ a.toNat ≤ 0xEF := by omega
              simp [leading, h1, h2, h3, h4]
        obtain ⟨lo, hi, hl, hlo, hhi⟩ := hlead
        have hdec := decode_three a b d rest lo hi hl (by omega) hlo hhi (by omega) (by omega)
        simp only [List.cons_append, List.nil_append, hdec, List.length_cons, List.length_nil]
        congr 1
        omega
      · rename_i hv1 hv2 hv3
        simp only [List.map_eq_cons_iff, List.map_eq_nil_iff] at h
        obtain ⟨a, t, rfl, ha, b, t2, rfl, hb, d, t3, rfl, hd, e, t4, rfl, he, rfl⟩ := h
        have hlead : ∃ lo hi, leading a.toNat = some (4, lo, hi) ∧ lo ≤ b.toNat ∧
            b.toNat ≤ hi := by
          by_cases hF0 : v / 262144 = 0
          · refine ⟨0x90, 0xBF, ?_, by omega, by omega⟩
            have : a.toNat = 0xF0 := by omega
            simp [leading, this]
          · by_cases hF4 : v / 262144 = 4
            · refine ⟨0x80, 0x8F, ?_, by omega, by omega⟩
              have : a.toNat = 0xF4 := by omega
              simp [leading, this]
            · refine ⟨0x80, 0xBF, ?_, by omega, by omega⟩
              have h1 : ¬ (0xC2 ≤ a.toNat ∧ a.toNat ≤ 0xDF) := by omega
              have h2 : ¬ a.toNat = 0xE0 := by omega
              have h3 : ¬ a.toNat = 0xED := by omega
              have h4 : ¬ (0xE1 ≤ a.toNat ∧ a.toNat ≤ 0xEF) := by omega
              have h5 : ¬ a.toNat = 0xF0 := by omega
              have h6 : 0xF1 ≤ a.toNat ∧ a.toNat ≤ 0xF3 := by omega
              simp [leading, h1, h2, h3, h4, h5, h6]
        obtain ⟨lo, hi, hl, hlo, hhi⟩ := hlead
        have hdec := decode_four a b d e rest lo hi hl (by omega) hlo hhi (by omega) (by omega)
          (by omega) (by omega)
        simp only [List.cons_append, List.nil_append, hdec, List.length_cons, List.length_nil]
        congr 1
        omega

theorem jsonRunes_skip (a rest : GoString) :
    jsonRunes (a ++ rest) a.length = jsonRunes rest 0 := by
  induction a with
  | nil => rfl
  | cons b t ih => simpa [jsonRunes] using ih

theorem jsonRunes_utf8EncodeChar (c : Char) (rest : GoString) :
    jsonRunes (String.utf8EncodeChar c ++ rest) 0 = c :: jsonRunes rest 0 := by
  have hdec := decode_utf8EncodeChar c rest
  cases hl : String.utf8EncodeChar c with
  | nil =>
    have hlen := String.length_utf8EncodeChar c
    have hpos := Char.utf8Size_pos c
    rw [hl] at hlen
    simp at hlen
    omega
  | cons b t =>
    rw [hl] at hdec
    simp only [List.cons_append] at hdec ⊢
    rw [jsonRunes, hdec]
    simp only [List.length_cons, Nat.add_sub_cancel]
    rw [jsonRunes_skip]
    congr 1
    exact Char.ofNat_toNat c

/-- A valid UTF-8 name comes back from the JSON encoding unchanged: the text of the JSON
string written for the UTF-8 encoding of a text is that text. -/
theorem jsonString_utf8 (text : String) : jsonString (utf8 text) = text := by
  have h : ∀ cs : List Char, jsonRunes (cs.flatMap String.utf8EncodeChar) 0 = cs := by
    intro cs
    induction cs with
    | nil => rfl
    | cons c cs ih => rw [List.flatMap_cons, jsonRunes_utf8EncodeChar, ih]
  simp only [jsonString, utf8, h]

/-! ## Theorems about the store and the handlers -/

theorem toInt_of_range {x : Int} (hlo : minInt ≤ x) (hhi : x ≤ maxInt) : toInt x = x := by
  simp only [minInt, maxInt] at hlo hhi
  simp only [toInt]
  omega

theorem mem_insertRow (u r : User) (db : Table) : r ∈ insertRow u db ↔ r = u ∨ r ∈ db := by
  induction db with
  | nil => simp [insertRow]
  | cons x rest ih =>
    unfold insertRow
    split
    · simp
    · simp only [List.mem_cons, ih]
      tauto

theorem insertRow_perm (u : User) (db : Table) : (insertRow u db).Perm (u :: db) := by
  induction db with
  | nil => exact List.Perm.refl _
  | cons x rest ih =>
    unfold insertRow
    split
    · exact List.Perm.refl _
    · exact (List.Perm.cons x ih).trans (List.Perm.swap u x rest)

/-- An insertion keeps a table in the order of its ids. -/
theorem insertRow_sorted (u : User) (db : Table) (h : (db.map User.ID).Pairwise (· ≤ ·)) :
    ((insertRow u db).map User.ID).Pairwise (· ≤ ·) := by
  induction db with
  | nil => simp [insertRow]
  | cons x rest ih =>
    have hx := List.pairwise_cons.mp h
    unfold insertRow
    split
    · rename_i hlt
      refine List.pairwise_cons.mpr ⟨?_, h⟩
      intro a ha
      rcases List.mem_cons.mp ha with ha | ha
      · omega
      · have := hx.1 a ha
        omega
    · rename_i hge
      refine List.pairwise_cons.mpr ⟨?_, ih hx.2⟩
      intro a ha
      obtain ⟨r, hr, hra⟩ := List.mem_map.mp ha
      rcases (mem_insertRow u r rest).mp hr with hru | hrr
      · rw [← hra, hru]
        omega
      · exact hx.1 a (hra ▸ List.mem_map_of_mem User.ID hrr)

theorem le_maxRowid (db : Table) (m : Int) (hm : maxRowid db = some m) :
    ∀ r ∈ db, r.ID ≤ m := by
  induction db generalizing m with
  | nil => intro r hr; exact absurd hr (List.not_mem_nil r)
  | cons x rest ih =>
    intro r hr
    unfold maxRowid at hm
    cases hrest : maxRowid rest with
    | none =>
      rw [hrest] at hm
      have hnil : rest = [] := by
        cases rest with
        | nil => rfl
        | cons y t =>
          unfold maxRowid at hrest
          cases hsub : maxRowid t <;> rw [hsub] at hrest <;> exact Option.noConfusion hrest
      subst hnil
      have hx : r = x := by simpa using hr
      have hmx : x.ID = m := by simpa using hm
      rw [hx, hmx]
    | some k =>
      rw [hrest] at hm
      have hmk : max x.ID k = m := by simpa using hm
      rcases List.mem_cons.mp hr with h | h
      · rw [h]
        omega
      · have := ih k hrest r h
        omega

theorem maxRowid_mem (db : Table) (m : Int) (hm : maxRowid db = some m) : m ∈ db.ids := by
  induction db generalizing m with
  | nil => exact Option.noConfusion hm
  | cons x rest ih =>
    unfold maxRowid at hm
    cases hrest : maxRowid rest with
    | none =>
      rw [hrest] at hm
      have hmx : x.ID = m := by simpa using hm
      simp [Table.ids, hmx]
    | some k =>
      rw [hrest] at hm
      have hmk : max x.ID k = m := by simpa using hm
      have hk : k ∈ rest.map User.ID := ih k hrest
      by_cases hle : x.ID ≤ k
      · have : m = k := by omega
        rw [this]
        exact List.mem_cons_of_mem _ hk
      · have : m = x.ID := by omega
        rw [this]
        exact List.mem_cons_self _ _

/-- The id the store assigns is an id that no row of the table has. -/
theorem newRowid_fresh (draws : List Int) (db : Table) (i : Int)
    (h : newRowid draws db = some i) : i ∉ db.ids := by
  unfold newRowid at h
  cases hmax : maxRowid db with
  | none =>
    cases db with
    | nil => simp [Table.ids]
    | cons y t =>
      unfold maxRowid at hmax
      cases hsub : maxRowid t <;> rw [hsub] at hmax <;> exact Option.noConfusion hmax
  | some m =>
    rw [hmax] at h
    by_cases hlt : m < maxInt
    · simp only [hlt, if_true, Option.some.injEq] at h
      intro hmem
      obtain ⟨r, hr, hEq⟩ := List.mem_map.mp hmem
      have := le_maxRowid db m hmax r hr
      omega
    · simp only [hlt, if_false] at h
      have := List.find?_some h
      simpa using this

/-- The id the store assigns to a row of a table of 64-bit ids is a 64-bit integer. -/
theorem newRowid_range (draws : List Int) (db : Table) (i : Int)
    (hty : ∀ r ∈ db, minInt ≤ r.ID ∧ r.ID ≤ maxInt) (h : newRowid draws db = some i) :
    minInt ≤ i ∧ i ≤ maxInt := by
  unfold newRowid at h
  cases hmax : maxRowid db with
  | none =>
    rw [hmax] at h
    have hi : i = 1 := by simpa using h.symm
    rw [hi]
    simp only [minInt, maxInt]
    omega
  | some m =>
    rw [hmax] at h
    by_cases hlt : m < maxInt
    · simp only [hlt, if_true, Option.some.injEq] at h
      obtain ⟨r, hr, hEq⟩ := List.mem_map.mp (maxRowid_mem db m hmax)
      have := hty r hr
      omega
    · simp only [hlt, if_false] at h
      have hmem := List.mem_of_find?_eq_some h
      obtain ⟨v, _, hv⟩ := List.mem_map.mp hmem
      simp only [minInt, maxInt]
      omega

theorem Table.valid_insertRow {db : Table} {u : User} (hdb : db.valid)
    (hu : validateUser u.Name u.Age = none) : Table.valid (insertRow u db) := by
  intro r hr
  rcases (mem_insertRow u r db).mp hr with h | h
  · rw [h]
    exact hu
  · exact hdb r h

theorem postUsers_valid (drv : Driver) (db : Table) (name ageForm : GoString)
    (hdb : db.valid) : (postUsers drv db name ageForm).1.valid := by
  unfold postUsers
  split
  · exact hdb
  · rename_i age _
    split
    · exact hdb
    · rename_i hv
      unfold execInsert
      cases drv.fails with
      | true => exact hdb
      | false =>
        cases newRowid drv.draws db with
        | none => exact hdb
        | some i => exact Table.valid_insertRow hdb hv

theorem execUpdate_valid (db : Table) (name : GoString) (age id : Int) (hdb : db.valid)
    (hv : validateUser name age = none) :
    Table.valid (db.map (fun u => if u.ID = id then { u with Name := name, Age := age } else u)) := by
  intro r hr
  obtain ⟨u, hu, rfl⟩ := List.mem_map.mp hr
  by_cases h : u.ID = id
  · simpa [h] using hv
  · simpa [h] using hdb u hu

theorem putUsersId_valid (drv : Driver) (db : Table) (idParam name ageForm : GoString)
    (hdb : db.valid) : (putUsersId drv db idParam name ageForm).1.valid := by
  unfold putUsersId
  split
  · exact hdb
  · rename_i id _
    split
    · exact hdb
    · rename_i age _
      split
      · exact hdb
      · rename_i hv
        unfold execUpdate
        cases drv.fails with
        | true => exact hdb
        | false =>
          simp only [Bool.false_eq_true, if_false]
          split <;> exact execUpdate_valid db name age id hdb hv

theorem deleteUsersId_valid (drv : Driver) (db : Table) (idParam : GoString) (hdb : db.valid) :
    (deleteUsersId drv db idParam).1.valid := by
  unfold deleteUsersId
  split
  · exact hdb
  · unfold execDelete
    cases drv.fails with
    | true => exact hdb
    | false =>
      simp only [Bool.false_eq_true, if_false]
      split <;> exact fun u hu => hdb u (List.mem_filter.mp hu).1

theorem getUsers_table (drv : Driver) (db : Table) : (getUsers drv db).1 = db := by
  unfold getUsers queryAll
  cases drv.fails with
  | true => rfl
  | false => cases drv.stopAfter <;> rfl

theorem getUsersId_table (drv : Driver) (db : Table) (idParam : GoString) :
    (getUsersId drv db idParam).1 = db := by
  unfold getUsersId
  split
  · rfl
  · split <;> rfl

theorem serve_valid (db : Table) (req : Request) (hdb : db.valid) : (serve db req).1.valid := by
  cases req with
  | post drv name ageForm => exact postUsers_valid drv db name ageForm hdb
  | put drv idParam name ageForm => exact putUsersId_valid drv db idParam name ageForm hdb
  | list drv => simpa [serve, getUsers_table] using hdb
  | delete drv idParam => exact deleteUsersId_valid drv db idParam hdb
  | get drv idParam => simpa [serve, getUsersId_table] using hdb

/-- C6: if every row of the table passes `validateUser`, then after any sequence of requests
to the five routes (create, update and delete among them), with arbitrary raw parameters and
whatever the database driver does while each is served, every row of the resulting table
passes `validateUser`. -/
theorem run_valid (reqs : List Request) (db : Table)
    (hdb : ∀ u ∈ db, validateUser u.Name u.Age = none) :
    ∀ u ∈ run db reqs, validateUser u.Name u.Age = none := by
  induction reqs generalizing db with
  | nil => exact hdb
  | cons req rest ih => exact ih (serve db req).1 (serve_valid db req hdb)

theorem run_valid_witness :
    (∀ u ∈ sampleTable, validateUser u.Name u.Age = none) ∧
      ∀ u ∈ run sampleTable sampleRequests, validateUser u.Name u.Age = none :=
  ⟨by decide, run_valid sampleRequests sampleTable (by decide)⟩

theorem filter_eq_nil_of_absent (db : Table) (id : Int) (habs : ∀ u ∈ db, u.ID ≠ id) :
    db.filter (fun u => u.ID = id) = [] := by
  apply List.filter_eq_nil_iff.mpr
  intro u hu
  simpa using habs u hu

theorem filter_eq_self_of_absent (db : Table) (id : Int) (habs : ∀ u ∈ db, u.ID ≠ id) :
    db.filter (fun u => u.ID ≠ id) = db := by
  apply List.filter_eq_self.mpr
  intro u hu
  simpa using habs u hu

theorem map_eq_self_of_absent (db : Table) (name : GoString) (age id : Int)
    (habs : ∀ u ∈ db, u.ID ≠ id) :
    db.map (fun u => if u.ID = id then { u with Name := name, Age := age } else u) = db := by
  induction db with
  | nil => rfl
  | cons x rest ih =>
    have hx : x.ID ≠ id := habs x (List.mem_cons_self _ _)
    have hrest := ih (fun u hu => habs u (List.mem_cons_of_mem _ hu))
    simp only [List.map_cons, hx, if_false, hrest]

/-- C7, as stated, fails: on a table without row 2, with the driver reporting an error for
the statement, `PUT /users/2` with a valid name and age answers 500, not 404. -/
theorem not_found_of_absent_counterexample :
    ¬ (∀ (drv : Driver) (db : Table) (idParam name ageForm : GoString) (id age : Int),
        Atoi idParam = .ok id → Atoi ageForm = .ok age → validateUser name age = none →
        (∀ u ∈ db, u.ID ≠ id) →
        (putUsersId drv db idParam name ageForm).2.status = 404 ∧
        (deleteUsersId drv db idParam).2.status = 404) := by
  intro h
  have h2 := h broken sampleTable two bob thirty 2 30 rfl rfl (by decide) (by decide)
  exact absurd h2.1 (by decide)

/-- C7, amended: for every table and every id that no row has, the handler of
`PUT /users/:id`, given an age that parses and a name and age that pass `validateUser`,
answers 404 "user not found" when `db.Exec` reports no error and 500 when it reports one, and
so does the handler of `DELETE /users/:id`; the table is unchanged in every case. -/
theorem not_found_of_absent (drvPut drvDelete : Driver) (db : Table)
    (idParam name ageForm : GoString) (id age : Int)
    (hid : Atoi idParam = .ok id) (hage : Atoi ageForm = .ok age)
    (hv : validateUser name age = none) (habs : ∀ u ∈ db, u.ID ≠ id) :
    putUsersId drvPut db idParam name ageForm =
      (db, if drvPut.fails then .failed ⟨500, .ofError .driver⟩
        else .failed ⟨404, .text "user not found"⟩) ∧
    deleteUsersId drvDelete db idParam =
      (db, if drvDelete.fails then .failed ⟨500, .ofError .driver⟩
        else .failed ⟨404, .text "user not found"⟩) := by
  have hnil := filter_eq_nil_of_absent db id habs
  have hself := filter_eq_self_of_absent db id habs
  have hmap := map_eq_self_of_absent db name age id habs
  constructor
  · cases hf : drvPut.fails with
    | true =>
      simp [putUsersId, hid, hage, hv, execUpdate, hf, NewHTTPError, StatusInternalServerError]
    | false =>
      simp only [putUsersId, hid, hage, hv, execUpdate, hf, hnil, hmap, List.length_nil,
        if_true, NewHTTPError, StatusNotFound, Bool.false_eq_true, if_false]
  · cases hf : drvDelete.fails with
    | true =>
      simp [deleteUsersId, hid, execDelete, hf, NewHTTPError, StatusInternalServerError]
    | false =>
      simp only [deleteUsersId, hid, execDelete, hf, hnil, hself, List.length_nil,
        if_true, NewHTTPError, StatusNotFound, Bool.false_eq_true, if_false]

theorem not_found_of_absent_witness :
    Atoi two = .ok 2 ∧ Atoi thirty = .ok 30 ∧ validateUser bob 30 = none ∧
    (∀ u ∈ sampleTable, u.ID ≠ 2) ∧
    (putUsersId sound sampleTable two bob thirty =
      (sampleTable, if sound.fails then .failed ⟨500, .ofError .driver⟩
        else .failed ⟨404, .text "user not found"⟩) ∧
    deleteUsersId broken sampleTable two =
      (sampleTable, if broken.fails then .failed ⟨500, .ofError .driver⟩
        else .failed ⟨404, .text "user not found"⟩)) :=
  ⟨rfl, rfl, by decide, by decide,
    not_found_of_absent sound broken sampleTable two bob thirty 2 30 rfl rfl (by decide)
      (by decide)⟩

theorem find?_eq_none_of_absent (db : Table) (id : Int) (habs : ∀ u ∈ db, u.ID ≠ id) :
    db.find? (fun u => u.ID = id) = none := by
  apply List.find?_eq_none.mpr
  intro u hu
  simpa using habs u hu

theorem find?_insertRow_fresh (db : Table) (u : User) (habs : ∀ r ∈ db, r.ID ≠ u.ID) :
    (insertRow u db).find? (fun r => r.ID = u.ID) = some u := by
  induction db with
  | nil => simp [insertRow]
  | cons x rest ih =>
    have hx : x.ID ≠ u.ID := habs x (List.mem_cons_self _ _)
    have hrest := ih (fun r hr => habs r (List.mem_cons_of_mem _ hr))
    unfold insertRow
    split
    · simp
    · simp [List.find?_cons, hx, hrest]

theorem deleteUsersId_absent (drv : Driver) (db : Table) (idParam : GoString) (id : Int)
    (hid : Atoi idParam = .ok id) (hok : drv.fails = false) :
    ∀ u ∈ (deleteUsersId drv db idParam).1, u.ID ≠ id := by
  intro u hu
  simp only [deleteUsersId, hid, execDelete, hok, Bool.false_eq_true, if_false] at hu
  split at hu <;> simpa using (List.mem_filter.mp hu).2

/-- C10: for every table and every id that no row has, the handler of `GET /users/:id`
answers 500 and leaves the table as it was; the message is the text of `sql.ErrNoRows`, or
that of the driver's error when the driver reports one. -/
theorem getUsersId_absent (drv : Driver) (db : Table) (idParam : GoString) (id : Int)
    (hid : Atoi idParam = .ok id) (habs : ∀ u ∈ db, u.ID ≠ id) :
    (getUsersId drv db idParam).2 =
      .failed ⟨500, .ofError (if drv.fails then .driver else .errNoRows)⟩ ∧
    (getUsersId drv db idParam).2.status = 500 ∧ (getUsersId drv db idParam).1 = db := by
  have hfind := find?_eq_none_of_absent db id habs
  cases hf : drv.fails <;>
    simp [getUsersId, hid, queryRow, hf, hfind, NewHTTPError, StatusInternalServerError,
      Outcome.status]

theorem getUsersId_absent_witness :
    Atoi one = .ok 1 ∧ (deleteUsersId sound sampleTable one).2 = .noContent 204 ∧
    (∀ u ∈ (deleteUsersId sound sampleTable one).1, u.ID ≠ 1) ∧
    ((getUsersId sound (deleteUsersId sound sampleTable one).1 one).2 =
      .failed ⟨500, .ofError (if sound.fails then .driver else .errNoRows)⟩ ∧
    (getUsersId sound (deleteUsersId sound sampleTable one).1 one).2.status = 500 ∧
    (getUsersId sound (deleteUsersId sound sampleTable one).1 one).1 =
      (deleteUsersId sound sampleTable one).1) :=
  ⟨rfl, rfl, by decide,
    getUsersId_absent sound (deleteUsersId sound sampleTable one).1 one 1 rfl (by decide)⟩

/-- After a `DELETE /users/:id` that the driver executed, whatever its answer,
`GET /users/:id` with the same parameter answers 500. -/
theorem delete_then_get (drvDelete drvGet : Driver) (db : Table) (idParam : GoString)
    (id : Int) (hid : Atoi idParam = .ok id) (hok : drvDelete.fails = false) :
    (getUsersId drvGet (deleteUsersId drvDelete db idParam).1 idParam).2.status = 500 := by
  have habs := deleteUsersId_absent drvDelete db idParam id hid hok
  have hfind := find?_eq_none_of_absent (deleteUsersId drvDelete db idParam).1 id habs
  cases hf : drvGet.fails <;>
    simp [getUsersId, hid, queryRow, hf, hfind, NewHTTPError, StatusInternalServerError,
      Outcome.status]

theorem utf8_replacement_ne_badName : utf8 replacement ≠ badName := by
  intro h
  have hlen := congrArg len h
  rw [len_utf8] at hlen
  exact absurd hlen (by decide)

/-- C8, as stated, fails: a name of the single byte 0xFF passes `validateUser` and is stored,
but the record that `GET /users/1` returns after the create carries the name U+FFFD, whose
UTF-8 encoding is not the submitted name. -/
theorem post_then_get_counterexample :
    ¬ (∀ (drvPost drvGet : Driver) (db : Table) (name ageForm idParam : GoString) (age : Int)
        (body : UserJSON),
        (∀ r ∈ db, minInt ≤ r.ID ∧ r.ID ≤ maxInt) →
        Atoi ageForm = .ok age → validateUser name age = none →
        (postUsers drvPost db name ageForm).2 = .json 200 body →
        Atoi idParam = .ok body.id →
        (∀ r ∈ db, r.ID ≠ body.id) ∧
        ∃ got : UserJSON,
          (getUsersId drvGet (postUsers drvPost db name ageForm).1 idParam).2 = .json 200 got ∧
          got.id = body.id ∧ utf8 got.name = name ∧ got.age = age) := by
  intro h
  have h2 := h sound sound [] badName thirty one 30 ⟨1, replacement, 30⟩
    (by decide) rfl (by decide) rfl rfl
  obtain ⟨_, got, hgot, _, hname, _⟩ := h2
  have hval : (getUsersId sound (postUsers sound [] badName thirty).1 one).2 =
      .json 200 ⟨1, replacement, 30⟩ := rfl
  rw [hval] at hgot
  have hEq : (⟨1, replacement, 30⟩ : UserJSON) = got := (Outcome.json.inj hgot).2
  rw [← hEq] at hname
  exact utf8_replacement_ne_badName hname

/-- C8, amended: on a table of 64-bit ids, whenever the handler of `POST /users` answers with
a JSON record, the status is 200, no row of the table before the call had the id of the
record, the record carries the parsed age and the name as `encoding/json` writes it (the
submitted name when that is valid UTF-8, U+FFFD for every invalid byte otherwise), name and
age pass `validateUser`, the table has gained exactly the row of that id, name and age, and
the handler of `GET /users/:id` on the new table, for every path parameter that reads as that
id (its decimal text is one), answers 200 with the same record when the driver reports no
error and 500 when it reports one. -/
theorem post_then_get (drvPost drvGet : Driver) (db : Table) (name ageForm : GoString)
    (code : Nat) (body : UserJSON) (hty : ∀ r ∈ db, minInt ≤ r.ID ∧ r.ID ≤ maxInt)
    (h : (postUsers drvPost db name ageForm).2 = .json code body) :
    code = 200 ∧ (∀ r ∈ db, r.ID ≠ body.id) ∧ body.name = jsonString name ∧
    (∀ text : String, name = utf8 text → body.name = text) ∧
    Atoi ageForm = .ok body.age ∧ validateUser name body.age = none ∧
    (postUsers drvPost db name ageForm).1.Perm (⟨body.id, name, body.age⟩ :: db) ∧
    Atoi (decimal body.id) = .ok body.id ∧
    ∀ idParam : GoString, Atoi idParam = .ok body.id →
      (getUsersId drvGet (postUsers drvPost db name ageForm).1 idParam).2 =
        if drvGet.fails then .failed ⟨500, .ofError .driver⟩ else .json 200 body := by
  cases hA : Atoi ageForm with
  | error e => simp [postUsers, hA] at h
  | ok age =>
    cases hV : validateUser name age with
    | some err => simp [postUsers, hA, hV] at h
    | none =>
      cases hf : drvPost.fails with
      | true => simp [postUsers, hA, hV, execInsert, hf] at h
      | false =>
        cases hn : newRowid drvPost.draws db with
        | none => simp [postUsers, hA, hV, execInsert, hf, hn] at h
        | some i =>
          have hrange := newRowid_range drvPost.draws db i hty hn
          have hfresh := newRowid_fresh drvPost.draws db i hn
          have hpost : postUsers drvPost db name ageForm =
              (insertRow ⟨i, name, age⟩ db, .json StatusOK (marshal ⟨i, name, age⟩)) := by
            simp [postUsers, hA, hV, execInsert, hf, hn, toInt_of_range hrange.1 hrange.2]
          rw [hpost] at h ⊢
          simp only [Outcome.json.injEq] at h
          obtain ⟨hc, hbody⟩ := h
          subst hbody
          have habs : ∀ r ∈ db, r.ID ≠ i := by
            intro r hr hEq
            exact hfresh (hEq ▸ List.mem_map_of_mem User.ID hr)
          refine ⟨by simp [← hc, StatusOK], habs, rfl, ?_, rfl, hV,
            insertRow_perm _ db, Atoi_decimal i hrange.1 hrange.2, ?_⟩
          · intro text htext
            show jsonString name = text
            rw [htext, jsonString_utf8]
          · intro idParam hid
            have hq := find?_insertRow_fresh db ⟨i, name, age⟩ habs
            have hid2 : Atoi idParam = .ok i := hid
            cases hg : drvGet.fails <;>
              simp [getUsersId, hid2, queryRow, hg, hq, NewHTTPError, StatusOK,
                StatusInternalServerError]

theorem post_then_get_witness :
    (∀ r ∈ sampleTable, minInt ≤ r.ID ∧ r.ID ≤ maxInt) ∧
    (postUsers sound sampleTable bob thirtyOne).2 = .json 200 ⟨2, "Bob", 31⟩ ∧
    (200 = 200 ∧ (∀ r ∈ sampleTable, r.ID ≠ (⟨2, "Bob", 31⟩ : UserJSON).id) ∧
    (⟨2, "Bob", 31⟩ : UserJSON).name = jsonString bob ∧
    (∀ text : String, bob = utf8 text → (⟨2, "Bob", 31⟩ : UserJSON).name = text) ∧
    Atoi thirtyOne = .ok (⟨2, "Bob", 31⟩ : UserJSON).age ∧
    validateUser bob (⟨2, "Bob", 31⟩ : UserJSON).age = none ∧
    (postUsers sound sampleTable bob thirtyOne).1.Perm
      (⟨(⟨2, "Bob", 31⟩ : UserJSON).id, bob, (⟨2, "Bob", 31⟩ : UserJSON).age⟩ :: sampleTable) ∧
    Atoi (decimal (⟨2, "Bob", 31⟩ : UserJSON).id) = .ok (⟨2, "Bob", 31⟩ : UserJSON).id ∧
    ∀ idParam : GoString, Atoi idParam = .ok (⟨2, "Bob", 31⟩ : UserJSON).id →
      (getUsersId sound (postUsers sound sampleTable bob thirtyOne).1 idParam).2 =
        if sound.fails then .failed ⟨500, .ofError .driver⟩ else .json 200 ⟨2, "Bob", 31⟩) :=
  ⟨by decide, rfl,
    post_then_get sound sound sampleTable bob thirtyOne 200 ⟨2, "Bob", 31⟩ (by decide) rfl⟩

/-- When the driver executes the statement, `PUT /users/:id` on an id that some row has, with
a name and age that pass `validateUser`, answers 200 with the record of that id, name and
age. -/
theorem putUsersId_ok (drv : Driver) (db : Table) (idParam name ageForm : GoString)
    (id age : Int) (hid : Atoi idParam = .ok id) (hage : Atoi ageForm = .ok age)
    (hv : validateUser name age = none) (hex : ∃ u ∈ db, u.ID = id)
    (hok : drv.fails = false) :
    (putUsersId drv db idParam name ageForm).2 = .json 200 (marshal ⟨id, name, age⟩) := by
  have hcount : (db.filter (fun u => u.ID = id)).length ≠ 0 := by
    obtain ⟨u, hu, hEq⟩ := hex
    have hmem : u ∈ db.filter (fun u => u.ID = id) := by
      simp [List.mem_filter, hu, hEq]
    intro h0
    rw [List.length_eq_zero] at h0
    rw [h0] at hmem
    exact List.not_mem_nil u hmem
  simp only [putUsersId, hid, hage, hv, execUpdate, hok, Bool.false_eq_true, if_false, hcount,
    StatusOK]

/-- C9, as stated, fails: after `PUT /users/1` with a name of the single byte 0xFF, row 1
holds that byte while the response body carries the name U+FFFD, whose UTF-8 encoding is
not the stored name. -/
theorem putUsersId_frame_counterexample :
    ¬ (∀ (drv : Driver) (db : Table) (idParam name ageForm : GoString) (body : UserJSON),
        (putUsersId drv db idParam name ageForm).2 = .json 200 body →
        ∀ r ∈ (putUsersId drv db idParam name ageForm).1, r.ID = body.id →
          utf8 body.name = r.Name ∧ body.age = r.Age) := by
  intro h
  have h2 := h sound twoRows one badName thirty ⟨1, replacement, 30⟩ rfl ⟨1, badName, 30⟩
    (by decide) rfl
  exact utf8_replacement_ne_badName h2.1

/-- C9, amended: whenever the handler of `PUT /users/:id` answers with a JSON record, the
status is 200, the path parameter reads as the id of the record and some row had that id, the
table keeps its length and the id of every row, a row with that id becomes exactly the row of
that id with the new name and age, every other row is unchanged, and the record is the JSON
encoding of the stored row: its id and age, and its name as `encoding/json` writes it (the
stored name when that is valid UTF-8, U+FFFD for every invalid byte otherwise). -/
theorem putUsersId_frame (drv : Driver) (db : Table) (idParam name ageForm : GoString)
    (code : Nat) (body : UserJSON)
    (h : (putUsersId drv db idParam name ageForm).2 = .json code body) :
    code = 200 ∧ Atoi idParam = .ok body.id ∧ Atoi ageForm = .ok body.age ∧
    validateUser name body.age = none ∧ (∃ r ∈ db, r.ID = body.id) ∧
    (putUsersId drv db idParam name ageForm).1.length = db.length ∧
    (putUsersId drv db idParam name ageForm).1.ids = db.ids ∧
    (∀ (k : Nat) (u : User), db[k]? = some u →
      (putUsersId drv db idParam name ageForm).1[k]? =
        some (if u.ID = body.id then ⟨body.id, name, body.age⟩ else u)) ∧
    (∀ r ∈ (putUsersId drv db idParam name ageForm).1, r.ID = body.id →
      r = ⟨body.id, name, body.age⟩ ∧ marshal r = body) ∧
    body.name = jsonString name ∧ (∀ text : String, name = utf8 text → body.name = text) := by
  cases hid : Atoi idParam with
  | error e => simp [putUsersId, hid] at h
  | ok id =>
    cases hA : Atoi ageForm with
    | error e => simp [putUsersId, hid, hA] at h
    | ok age =>
      cases hV : validateUser name age with
      | some err => simp [putUsersId, hid, hA, hV] at h
      | none =>
        cases hf : drv.fails with
        | true => simp [putUsersId, hid, hA, hV, execUpdate, hf] at h
        | false =>
          by_cases hcount : (db.filter (fun u => u.ID = id)).length = 0
          · simp [putUsersId, hid, hA, hV, execUpdate, hf, hcount] at h
          · have hput : putUsersId drv db idParam name ageForm =
                (db.map (fun u => if u.ID = id then { u with Name := name, Age := age } else u),
                  .json StatusOK (marshal ⟨id, name, age⟩)) := by
              simp only [putUsersId, hid, hA, hV, execUpdate, hf, Bool.false_eq_true, if_false,
                hcount]
            rw [hput] at h ⊢
            simp only [Outcome.json.injEq] at h
            obtain ⟨hc, hbody⟩ := h
            subst hbody
            have hex : ∃ r ∈ db, r.ID = id := by
              cases hfl : db.filter (fun u => u.ID = id) with
              | nil => simp [hfl] at hcount
              | cons r t =>
                have hr : r ∈ db.filter (fun u => u.ID = id) := by simp [hfl]
                have hr2 := List.mem_filter.mp hr
                exact ⟨r, hr2.1, by simpa using hr2.2⟩
            refine ⟨by simp [← hc, StatusOK], rfl, rfl, hV, hex, by simp, ?_, ?_, ?_, rfl, ?_⟩
            · simp only [Table.ids, List.map_map]
              apply List.map_congr_left
              intro u _
              by_cases hu : u.ID = id <;> simp [hu]
            · intro k u hk
              show (db.map _)[k]? = some (if u.ID = id then ⟨id, name, age⟩ else u)
              simp only [List.getElem?_map, hk, Option.map_some']
              by_cases hu : u.ID = id
              · subst hu
                simp
              · simp [hu]
            · intro r hr hrid
              obtain ⟨u, _, hur⟩ := List.mem_map.mp hr
              have hrid2 : r.ID = id := hrid
              by_cases hu : u.ID = id
              · simp only [hu, if_true] at hur
                subst hur
                exact ⟨rfl, rfl⟩
              · simp only [hu, if_false] at hur
                subst hur
                exact absurd hrid2 hu
            · intro text htext
              show jsonString name = text
              rw [htext, jsonString_utf8]

theorem putUsersId_frame_witness :
    (putUsersId sound twoRows one bob thirtyOne).2 = .json 200 ⟨1, "Bob", 31⟩ ∧
    (200 = 200 ∧ Atoi one = .ok (⟨1, "Bob", 31⟩ : UserJSON).id ∧
    Atoi thirtyOne = .ok (⟨1, "Bob", 31⟩ : UserJSON).age ∧
    validateUser bob (⟨1, "Bob", 31⟩ : UserJSON).age = none ∧
    (∃ r ∈ twoRows, r.ID = (⟨1, "Bob", 31⟩ : UserJSON).id) ∧
    (putUsersId sound twoRows one bob thirtyOne).1.length = twoRows.length ∧
    (putUsersId sound twoRows one bob thirtyOne).1.ids = Table.ids twoRows ∧
    (∀ (k : Nat) (u : User), twoRows[k]? = some u →
      (putUsersId sound twoRows one bob thirtyOne).1[k]? =
        some (if u.ID = (⟨1, "Bob", 31⟩ : UserJSON).id then
          ⟨(⟨1, "Bob", 31⟩ : UserJSON).id, bob, (⟨1, "Bob", 31⟩ : UserJSON).age⟩ else u)) ∧
    (∀ r ∈ (putUsersId sound twoRows one bob thirtyOne).1,
      r.ID = (⟨1, "Bob", 31⟩ : UserJSON).id →
      r = ⟨(⟨1, "Bob", 31⟩ : UserJSON).id, bob, (⟨1, "Bob", 31⟩ : UserJSON).age⟩ ∧
      marshal r = ⟨1, "Bob", 31⟩) ∧
    (⟨1, "Bob", 31⟩ : UserJSON).name = jsonString bob ∧
    (∀ text : String, bob = utf8 text → (⟨1, "Bob", 31⟩ : UserJSON).name = text)) :=
  ⟨rfl, putUsersId_frame sound twoRows one bob thirtyOne 200 ⟨1, "Bob", 31⟩ rfl⟩

end EchoExample
